import Mathlib

/-!
Shallow embedding of the binding-generation pipeline of
`ethers-contract-abigen/src/lib.rs` (`Abigen`, `ContractBindings`,
`MultiAbigen`, `MultiAbigen::write_to_module`,
`MultiAbigen::ensure_consistent_bindings`).

Pure functions of the source are translated to Lean functions; the
filesystem is modelled as an association list from file names to file
contents, and `write_to_module` is modelled as a function returning the
list of file writes it performs together with its `Result`.

The modules `source.rs`, `rustfmt.rs`, `util.rs`, `contract.rs` and the
external `Inflector` crate are not part of the sources; definitions taken
from the specification instead of the code carry a doc comment starting
with `Modelled from the spec:`.
-/

namespace Abigen

/-- Error taxonomy of the pipeline.  The Rust code uses `anyhow::Result`;
the specification's taxonomy distinguishes source-classification errors,
ABI parse errors, codegen errors and I/O errors. -/
inductive GenError where
  | sourceError (msg : String)
  | abiParseError (msg : String)
  | codegenError (msg : String)
  | ioError (msg : String)
deriving DecidableEq, Repr

instance {ε α : Type} [DecidableEq ε] [DecidableEq α] : DecidableEq (Except ε α) := fun x y =>
  match x, y with
  | .error a, .error b =>
    if h : a = b then .isTrue (by rw [h])
    else .isFalse (by intro hc; injection hc; exact h (by assumption))
  | .error _, .ok _ => .isFalse (by intro hc; exact Except.noConfusion hc)
  | .ok _, .error _ => .isFalse (by intro hc; exact Except.noConfusion hc)
  | .ok a, .ok b =>
    if h : a = b then .isTrue (by rw [h])
    else .isFalse (by intro hc; injection hc; exact h (by assumption))

/-- Formatter failure (`rustfmt` invocation failure); caught by
`ContractBindings::write` and never surfaced. -/
structure FormatError where
  msg : String
deriving DecidableEq, Repr

/-- I/O failure of a sink write (`std::io::Error`). -/
structure IoErr where
  msg : String
deriving DecidableEq, Repr

/-- Modelled from the spec: `source.rs` is not among the sources.  The
resolver classifies a raw string into a tagged descriptor of where the
IDF/ABI content lives (spec 4.1). -/
inductive Source where
  | inlineSchema (text : String)
  | inlineJson (text : String)
  | filePath (path : String)
  | remoteRef (ident : String)
deriving DecidableEq, Repr

/-- Whether `pre` is a prefix of `s` (the character-list rendering of
`str.starts_with`). -/
def strStartsWith (s pre : String) : Bool :=
  pre.data.isPrefixOf s.data

/-- Whether `suf` is a suffix of `s` (the character-list rendering of
`str.ends_with`). -/
def strEndsWith (s suf : String) : Bool :=
  suf.data.isSuffixOf s.data

/-- Lexicographic less-or-equal on character lists; on ASCII (and on all
of Unicode, since UTF-8 preserves code-point order) this is exactly the
byte-wise ordering Rust's `Ord for String` uses. -/
def lexLeB : List Char → List Char → Bool
  | [], _ => true
  | _ :: _, [] => false
  | a :: as, b :: bs =>
    if a < b then true
    else if b < a then false
    else lexLeB as bs

/-- Boolean string order (Rust's `Ord for String`). -/
def strLeB (a b : String) : Bool :=
  lexLeB a.data b.data

/-- The string order as a relation. -/
def strLe (a b : String) : Prop :=
  strLeB a b = true

instance : DecidableRel strLe :=
  fun a b => inferInstanceAs (Decidable (strLeB a b = true))

/-- Modelled from the spec: classification order of spec 4.1, first match
wins.  The exact grammars are left to the collaborator by the spec; they
are instantiated here with simple concrete string predicates (a
human-readable schema starts with `[`, inline JSON starts with `[` or
`{`, a file path ends in `.json`, a remote reference uses a recognized
scheme).  Unclassifiable strings fail with a source error. -/
def Source.parse (s : String) : Except GenError Source :=
  if strStartsWith s "[" then .ok (.inlineSchema s)
  else if strStartsWith s "\x7b" then .ok (.inlineJson s)
  else if strEndsWith s ".json" then .ok (.filePath s)
  else if strStartsWith s "http://" || strStartsWith s "https://"
      || strStartsWith s "etherscan:" then
    .ok (.remoteRef s)
  else .error (.sourceError s)

/-- Modelled from the spec: the `Inflector` crate's `to_snake_case` is
external code.  It is modelled as the deterministic case-folding
transform that lowercases every character and inserts `_` between a
lowercase letter or digit and a following uppercase letter; digits attach
to the preceding word without a separator (`ERC20` becomes `erc20`,
matching the module listing in the source's doc comment). -/
def toSnakeCase (s : String) : String :=
  (s.toList.foldl
    (fun (acc : String × Bool) c =>
      if c.isUpper then
        ((if acc.2 then acc.1 ++ "_" else acc.1) ++ String.singleton c.toLower, false)
      else
        (acc.1 ++ String.singleton c, c.isLower || c.isDigit))
    ("", false)).1

/-- Per-contract generation configuration (`struct Abigen` in the
source).  Hash maps are modelled as association lists with last-write-wins
insertion. -/
structure Unit_ where
  abi_source : Source
  contract_name : String
  method_aliases : List (String × String)
  event_derives : List String
  rustfmt : Bool
  event_aliases : List (String × String)
deriving DecidableEq, Repr

/-- Insert-or-overwrite into an association list (models
`HashMap::insert`: an existing key keeps its position and gets the new
value, a new key is appended). -/
def upsert : List (String × String) → String → String → List (String × String)
  | [], k, v => [(k, v)]
  | p :: rest, k, v =>
    if p.1 = k then (k, v) :: rest else p :: upsert rest k v

/-- Models `Abigen::new`: parses the raw source string, defaults `rustfmt` to
`true` and all alias/derive collections to empty. -/
def Unit_.new (contract_name abi_source : String) : Except GenError Unit_ :=
  match Source.parse abi_source with
  | .error e => .error e
  | .ok src =>
      .ok { abi_source := src
            contract_name := contract_name
            method_aliases := []
            event_derives := []
            event_aliases := []
            rustfmt := true }

/-- Models `Abigen::add_event_alias`. -/
def Unit_.add_event_alias (a : Unit_) (signature alias_ : String) : Unit_ :=
  { a with event_aliases := upsert a.event_aliases signature alias_ }

/-- Models `Abigen::add_method_alias`. -/
def Unit_.add_method_alias (a : Unit_) (signature alias_ : String) : Unit_ :=
  { a with method_aliases := upsert a.method_aliases signature alias_ }

/-- Models `Abigen::rustfmt` (the builder method; renamed `set_rustfmt` because
the structure field already carries the source name). -/
def Unit_.set_rustfmt (a : Unit_) (rustfmt : Bool) : Unit_ :=
  { a with rustfmt := rustfmt }

/-- Models `Abigen::add_event_derive`: append-only, duplicates permitted. -/
def Unit_.add_event_derive (a : Unit_) (derive : String) : Unit_ :=
  { a with event_derives := a.event_derives ++ [derive] }

/-- The opaque expansion collaborator
(`Context::from_abigen(..).expand().into_tokens()`), a pure function of
the unit's name, source, aliases and derives, producing the unformatted
generated source or failing (spec 6). -/
def Expand : Type :=
  String → Source → List (String × String) → List (String × String) → List String →
    Except GenError String

/-- Modelled from the spec: `rustfmt.rs` is not among the sources.  The
external formatter `format(text)` either returns formatted text or
fails. -/
def Fmt : Type := String → Except FormatError String

/-- An output sink for `ContractBindings::write` (`W: Write`); writing
bytes may fail with an I/O error. -/
def Sink : Type := String → Except IoErr Unit

/-- Models `struct ContractBindings`: unformatted generated source
(`TokenStream`, modelled by its rendered string) plus the format flag. -/
structure ContractBindings where
  tokens : String
  rustfmt : Bool
deriving DecidableEq, Repr

/-- The text produced by `ContractBindings::write`: if `rustfmt` is set,
the formatter is attempted and its failure falls back to the raw text
(`rustfmt::format(&raw).unwrap_or(raw)`). -/
def ContractBindings.writeString (fmt : Fmt) (b : ContractBindings) : String :=
  if b.rustfmt then
    match fmt b.tokens with
    | .ok s => s
    | .error _ => b.tokens
  else b.tokens

/-- Models `ContractBindings::write`: renders (formatting best-effort) and writes
the bytes to the sink; the only fallible step is the sink write. -/
def ContractBindings.write (fmt : Fmt) (sink : Sink) (b : ContractBindings) :
    Except IoErr Unit :=
  sink (b.writeString fmt)

/-- Models `Abigen::generate`: invokes the expansion collaborator and packages
the result with the unit's format flag. -/
def Unit_.generate (expand : Expand) (a : Unit_) : Except GenError ContractBindings :=
  match expand a.contract_name a.abi_source a.method_aliases a.event_aliases a.event_derives with
  | .error e => .error e
  | .ok toks => .ok { tokens := toks, rustfmt := a.rustfmt }

/-- Whether generation of a unit succeeds. -/
def Unit_.genOk (expand : Expand) (a : Unit_) : Bool :=
  match a.generate expand with
  | .ok _ => true
  | .error _ => false

/-- The text `write_to_module` puts into a generated file for a unit
(meaningful when generation succeeds). -/
def Unit_.fileOutput (expand : Expand) (fmt : Fmt) (a : Unit_) : String :=
  match a.generate expand with
  | .ok b => b.writeString fmt
  | .error _ => ""

/-- Models `struct MultiAbigen`. -/
structure Multi where
  single_file : Bool
  abigens : List Unit_
deriving DecidableEq, Repr

/-- Models `MultiAbigen::from_abigen`: wraps the units, forcing `rustfmt(true)`
on each one. -/
def Multi.from_abigen (abis : List Unit_) : Multi :=
  { single_file := false, abigens := abis.map (fun a => a.set_rustfmt true) }

/-- Models the `collect` over `Abigen::new` (first error aborts) applied to the
(name, source) pairs: left to right, first error aborts. -/
def collectUnits : List (String × String) → Except GenError (List Unit_)
  | [] => .ok []
  | (n, s) :: rest =>
    match Unit_.new n s with
    | .error e => .error e
    | .ok a =>
      match collectUnits rest with
      | .error e => .error e
      | .ok as_ => .ok (a :: as_)

/-- Models `MultiAbigen::new`. -/
def Multi.new (pairs : List (String × String)) : Except GenError Multi :=
  match collectUnits pairs with
  | .error e => .error e
  | .ok abis => .ok (Multi.from_abigen abis)

/-- Modelled from the spec: `util::json_files` is not among the sources.
`MultiAbigen::from_json_files` reads the directory's json files as
(file stem, content) pairs and delegates to `MultiAbigen::new`; per spec
4.4 the iteration order is made deterministic by sorting by filename. -/
def Multi.from_json_files (dirFiles : List (String × String)) : Except GenError Multi :=
  Multi.new (List.insertionSort (fun a b => strLe a.1 b.1) dirFiles)

/-- Models `MultiAbigen::single_file` (renamed `set_single_file`; the structure
field already carries the source name). -/
def Multi.set_single_file (m : Multi) : Multi :=
  { m with single_file := true }

/-- The fixed manifest header
(`/// This module contains all the autogenerated abigen! contract bindings`,
with trailing newline). -/
def header : String :=
  "/// This module contains all the autogenerated abigen! contract bindings\n"

/-- One export declaration recorded for a module
(`format!("pub mod {};", name)`). -/
def exportDecl (name : String) : String :=
  "pub mod " ++ name ++ ";"

/-- Final manifest text: the accumulated buffer, with the sorted export
declarations appended when any were recorded
(`modules.sort(); write!(contracts_mod, "{}", modules.join("\n"))`).
`Vec::sort` on strings is the sort of the linear order, modelled by
insertion sort. -/
def manifestString (contractsMod : String) (modules : List String) : String :=
  if modules.isEmpty then contractsMod
  else contractsMod ++ String.intercalate "\n" (List.insertionSort strLe modules)

/-- Result of a `write_to_module` call: the file writes performed, in
order (file name, content), and the returned `Result`. -/
structure WriteResult where
  files : List (String × String)
  result : Except GenError Unit
deriving DecidableEq, Repr

/-- The loop of `MultiAbigen::write_to_module`, threading the performed
file writes, the manifest buffer and the recorded export declarations.
On a generation failure the call aborts: earlier writes stand, the
manifest is not written. -/
def writeLoop (expand : Expand) (fmt : Fmt) (sf : Bool) :
    List Unit_ → List (String × String) → String → List String → WriteResult
  | [], files, contractsMod, modules =>
    { files := files ++ [("mod.rs", manifestString contractsMod modules)]
      result := .ok () }
  | abi :: rest, files, contractsMod, modules =>
    let name := toSnakeCase abi.contract_name
    match abi.generate expand with
    | .error e => { files := files, result := .error e }
    | .ok bindings =>
      if sf then
        writeLoop expand fmt sf rest files
          (contractsMod ++ bindings.writeString fmt) modules
      else
        writeLoop expand fmt sf rest
          (files ++ [(name ++ ".rs", bindings.writeString fmt)])
          contractsMod (modules ++ [exportDecl name])

/-- Models `MultiAbigen::write_to_module`: seeds the manifest buffer with the
header and runs the loop; file-system writes themselves are modelled as
reliable. -/
def Multi.write_to_module (expand : Expand) (fmt : Fmt) (m : Multi) : WriteResult :=
  writeLoop expand fmt m.single_file m.abigens [] header []

/-- A directory: an association list from file names to contents. -/
def Dir : Type := List (String × String)

/-- Look a file up in a directory. -/
def dirLookup : List (String × String) → String → Option String
  | [], _ => none
  | p :: d, n => if p.1 = n then some p.2 else dirLookup d n

/-- Write a file into a directory (create or truncate). -/
def dirWrite (d : List (String × String)) (n c : String) : List (String × String) :=
  upsert d n c

/-- Apply a sequence of file writes to a directory. -/
def applyWrites (d : List (String × String)) (fs : List (String × String)) :
    List (String × String) :=
  fs.foldl (fun d p => dirWrite d p.1 p.2) d

/-- The directory obtained by performing a sequence of file writes in an
initially empty directory (the scratch directory of the oracle). -/
def filesToDir (fs : List (String × String)) : List (String × String) :=
  applyWrites [] fs

/-- Models `MultiAbigen::ensure_consistent_bindings`: regenerate into a scratch
directory and compare each fresh file against the same-named file of
`module`; `none` models the panic when the fresh `write_to_module`
fails. -/
def Multi.ensure_consistent_bindings (expand : Expand) (fmt : Fmt) (m : Multi)
    (module : List (String × String)) : Option Bool :=
  match (m.write_to_module expand fmt).result with
  | .error _ => none
  | .ok _ =>
    some ((filesToDir (m.write_to_module expand fmt).files).all fun p =>
      match dirLookup module p.1 with
      | none => false
      | some existing => existing == p.2)

/-- The last value written for a file name in a sequence of writes (the
content the file ends up with). -/
def lastWrite : List (String × String) → String → Option String
  | [], _ => none
  | p :: fs, n =>
    match lastWrite fs n with
    | some c => some c
    | none => if p.1 = n then some p.2 else none

/-- Concatenation of a list of strings (the single-file mode manifest
body accumulates the units' outputs in order). -/
def concatAll : List String → String
  | [] => ""
  | s :: l => s ++ concatAll l

/-- A directory has no two entries with the same file name. -/
def NodupKeys (d : List (String × String)) : Prop :=
  (d.map Prod.fst).Nodup

/-! Concrete fixtures used by witnesses and counterexamples. -/

/-- A generation unit fixture with the given contract name and no aliases
or derives. -/
def mkUnit (name : String) : Unit_ :=
  { abi_source := .inlineJson "[]"
    contract_name := name
    method_aliases := []
    event_derives := []
    event_aliases := []
    rustfmt := true }

/-- Expansion fixture: succeeds on every unit, producing a source string
derived from the contract name. -/
def expandName : Expand := fun n _ _ _ _ => .ok ("src_" ++ n ++ " ")

/-- Expansion fixture: produces `aaa` for contract `A` and the empty
string for every other contract. -/
def expandAOnly : Expand := fun n _ _ _ _ => if n = "A" then .ok "aaa" else .ok ""

/-- Expansion fixture: fails on contract `B`, succeeds elsewhere. -/
def expandFailB : Expand := fun n _ _ _ _ =>
  if n = "B" then .error (.codegenError "B") else .ok ("src_" ++ n ++ " ")

/-- Identity formatter fixture (formatting succeeds and is a no-op). -/
def fmtId : Fmt := fun s => .ok s

/-- Always-failing formatter fixture. -/
def fmtFail : Fmt := fun _ => .error ⟨"rustfmt missing"⟩

/-- Always-succeeding sink fixture. -/
def sinkOk : Sink := fun _ => .ok ()

/-! Directory-model lemmas. -/

theorem dirLookup_upsert (d : List (String × String)) (k v n : String) :
    dirLookup (upsert d k v) n = if k = n then some v else dirLookup d n := by
  induction d with
  | nil => by_cases hn : k = n <;> simp [upsert, dirLookup, hn]
  | cons p rest ih =>
    by_cases h : p.1 = k
    · by_cases hn : k = n <;> simp [upsert, dirLookup, h, hn]
    · by_cases hn : k = n <;> by_cases hp : p.1 = n <;>
        simp_all [upsert, dirLookup]

theorem applyWrites_cons (d : List (String × String)) (p : String × String)
    (fs : List (String × String)) :
    applyWrites d (p :: fs) = applyWrites (dirWrite d p.1 p.2) fs := rfl

theorem dirLookup_applyWrites (fs : List (String × String)) :
    ∀ (d : List (String × String)) (n : String),
    dirLookup (applyWrites d fs) n =
      match lastWrite fs n with
      | some c => some c
      | none => dirLookup d n := by
  induction fs with
  | nil => intro d n; simp [applyWrites, lastWrite]
  | cons p fs ih =>
    intro d n
    rw [applyWrites_cons, ih]
    cases hl : lastWrite fs n with
    | some c => simp [lastWrite, hl]
    | none =>
      simp only [lastWrite, hl]
      rw [dirWrite, dirLookup_upsert]
      by_cases hp : p.1 = n <;> simp [hp]

theorem dirLookup_filesToDir (fs : List (String × String)) (n : String) :
    dirLookup (filesToDir fs) n = lastWrite fs n := by
  rw [filesToDir, dirLookup_applyWrites]
  cases lastWrite fs n <;> simp [dirLookup]

theorem lastWrite_append (fs₁ fs₂ : List (String × String)) (n : String) :
    lastWrite (fs₁ ++ fs₂) n =
      match lastWrite fs₂ n with
      | some c => some c
      | none => lastWrite fs₁ n := by
  induction fs₁ with
  | nil => simp [lastWrite]; cases lastWrite fs₂ n <;> simp
  | cons p fs ih =>
    rw [List.cons_append]
    simp only [lastWrite, ih]
    cases lastWrite fs₂ n <;> cases lastWrite fs n <;> simp

theorem mem_of_dirLookup {d : List (String × String)} {n c : String}
    (h : dirLookup d n = some c) : (n, c) ∈ d := by
  induction d with
  | nil => simp [dirLookup] at h
  | cons p rest ih =>
    by_cases hp : p.1 = n
    · simp only [dirLookup, if_pos hp, Option.some.injEq] at h
      have hpe : p = (n, c) := Prod.ext_iff.mpr ⟨hp, h⟩
      exact List.mem_cons.mpr (Or.inl hpe.symm)
    · simp only [dirLookup, if_neg hp] at h
      exact List.mem_cons_of_mem _ (ih h)

theorem mem_keys_upsert {d : List (String × String)} {k v n : String}
    (h : n ∈ (upsert d k v).map Prod.fst) : n = k ∨ n ∈ d.map Prod.fst := by
  induction d with
  | nil => simp [upsert] at h; exact Or.inl h
  | cons p rest ih =>
    by_cases hp : p.1 = k
    · simp only [upsert, if_pos hp, List.map_cons, List.mem_cons] at h
      rcases h with h | h
      · exact Or.inl h
      · exact Or.inr (by rw [List.map_cons]; exact List.mem_cons_of_mem p.1 h)
    · simp only [upsert, if_neg hp, List.map_cons, List.mem_cons] at h
      rcases h with h | h
      · exact Or.inr (by rw [List.map_cons, h]; exact List.mem_cons_self p.1 _)
      · rcases ih h with h' | h'
        · exact Or.inl h'
        · exact Or.inr (by rw [List.map_cons]; exact List.mem_cons_of_mem p.1 h')

theorem nodupKeys_upsert {d : List (String × String)} (h : NodupKeys d) (k v : String) :
    NodupKeys (upsert d k v) := by
  induction d with
  | nil => simp [NodupKeys, upsert]
  | cons p rest ih =>
    rw [NodupKeys, List.map_cons, List.nodup_cons] at h
    by_cases hp : p.1 = k
    · rw [NodupKeys, upsert, if_pos hp, List.map_cons, List.nodup_cons]
      exact ⟨hp ▸ h.1, h.2⟩
    · rw [NodupKeys, upsert, if_neg hp, List.map_cons, List.nodup_cons]
      refine ⟨fun hmem => ?_, ih h.2⟩
      rcases mem_keys_upsert hmem with h' | h'
      · exact hp h'
      · exact h.1 h'

theorem nodupKeys_applyWrites :
    ∀ (fs : List (String × String)) {d : List (String × String)},
      NodupKeys d → NodupKeys (applyWrites d fs)
  | [], _, h => h
  | p :: fs, _, h => nodupKeys_applyWrites fs (nodupKeys_upsert h p.1 p.2)

theorem nodupKeys_filesToDir (fs : List (String × String)) :
    NodupKeys (filesToDir fs) :=
  nodupKeys_applyWrites fs (by simp [NodupKeys])

theorem dirLookup_of_mem {d : List (String × String)} (hd : NodupKeys d)
    {p : String × String} (hp : p ∈ d) : dirLookup d p.1 = some p.2 := by
  induction d with
  | nil => cases hp
  | cons q rest ih =>
    rw [NodupKeys, List.map_cons, List.nodup_cons] at hd
    rcases List.mem_cons.mp hp with h | h
    · rw [h]; simp [dirLookup]
    · have hq : ¬ q.1 = p.1 := fun he => hd.1 (he ▸ List.mem_map_of_mem Prod.fst h)
      rw [dirLookup, if_neg hq]
      exact ih hd.2 h

theorem mem_filesToDir_lastWrite {fs : List (String × String)} {p : String × String}
    (hp : p ∈ filesToDir fs) : lastWrite fs p.1 = some p.2 := by
  rw [← dirLookup_filesToDir]
  exact dirLookup_of_mem (nodupKeys_filesToDir fs) hp

theorem dirLookup_applyWrites_of_mem {fs : List (String × String)} {p : String × String}
    (hp : p ∈ filesToDir fs) (d : List (String × String)) :
    dirLookup (applyWrites d fs) p.1 = some p.2 := by
  rw [dirLookup_applyWrites, mem_filesToDir_lastWrite hp]

/-! Generation and write-loop lemmas. -/

theorem genOk_iff {expand : Expand} {a : Unit_} :
    a.genOk expand = true ↔ ∃ b, a.generate expand = .ok b := by
  cases h : a.generate expand <;> simp [Unit_.genOk, h]

theorem fileOutput_eq {expand : Expand} {fmt : Fmt} {a : Unit_} {b : ContractBindings}
    (hb : a.generate expand = .ok b) :
    a.fileOutput expand fmt = b.writeString fmt := by
  simp [Unit_.fileOutput, hb]

theorem writeLoop_nil (expand : Expand) (fmt : Fmt) (sf : Bool)
    (files : List (String × String)) (cm : String) (mods : List String) :
    writeLoop expand fmt sf [] files cm mods =
      { files := files ++ [("mod.rs", manifestString cm mods)], result := .ok () } := rfl

theorem writeLoop_cons_ok (expand : Expand) (fmt : Fmt) (sf : Bool) (a : Unit_)
    (rest : List Unit_) (files : List (String × String)) (cm : String) (mods : List String)
    (b : ContractBindings) (hb : a.generate expand = .ok b) :
    writeLoop expand fmt sf (a :: rest) files cm mods =
      if sf then
        writeLoop expand fmt sf rest files (cm ++ b.writeString fmt) mods
      else
        writeLoop expand fmt sf rest
          (files ++ [(toSnakeCase a.contract_name ++ ".rs", b.writeString fmt)])
          cm (mods ++ [exportDecl (toSnakeCase a.contract_name)]) := by
  simp [writeLoop, hb]

theorem writeLoop_cons_err (expand : Expand) (fmt : Fmt) (sf : Bool) (a : Unit_)
    (rest : List Unit_) (files : List (String × String)) (cm : String) (mods : List String)
    (e : GenError) (he : a.generate expand = .error e) :
    writeLoop expand fmt sf (a :: rest) files cm mods =
      { files := files, result := .error e } := by
  simp [writeLoop, he]

theorem writeLoop_ok_multi (expand : Expand) (fmt : Fmt) :
    ∀ (abis : List Unit_) (files : List (String × String)) (cm : String) (mods : List String),
    (∀ a ∈ abis, a.genOk expand = true) →
    writeLoop expand fmt false abis files cm mods =
      { files := files
          ++ abis.map (fun a => (toSnakeCase a.contract_name ++ ".rs", a.fileOutput expand fmt))
          ++ [("mod.rs",
                manifestString cm
                  (mods ++ abis.map (fun a => exportDecl (toSnakeCase a.contract_name))))]
        result := .ok () } := by
  intro abis
  induction abis with
  | nil => intro files cm mods _; simp [writeLoop_nil]
  | cons a rest ih =>
    intro files cm mods hok
    obtain ⟨b, hb⟩ := genOk_iff.mp (hok a (List.mem_cons_self a rest))
    rw [writeLoop_cons_ok expand fmt false a rest files cm mods b hb, if_neg (by simp)]
    rw [ih _ _ _ (fun x hx => hok x (List.mem_cons_of_mem a hx))]
    simp [fileOutput_eq hb, List.append_assoc]

theorem writeLoop_ok_single (expand : Expand) (fmt : Fmt) :
    ∀ (abis : List Unit_) (files : List (String × String)) (cm : String),
    (∀ a ∈ abis, a.genOk expand = true) →
    writeLoop expand fmt true abis files cm [] =
      { files := files
          ++ [("mod.rs", cm ++ concatAll (abis.map (fun a => a.fileOutput expand fmt)))]
        result := .ok () } := by
  intro abis
  induction abis with
  | nil =>
    intro files cm _
    rw [writeLoop_nil]
    simp [manifestString, concatAll, String.append_empty]
  | cons a rest ih =>
    intro files cm hok
    obtain ⟨b, hb⟩ := genOk_iff.mp (hok a (List.mem_cons_self a rest))
    rw [writeLoop_cons_ok expand fmt true a rest files cm [] b hb, if_pos rfl]
    rw [ih _ _ (fun x hx => hok x (List.mem_cons_of_mem a hx))]
    simp [fileOutput_eq hb, concatAll, String.append_assoc]

theorem writeLoop_err_multi (expand : Expand) (fmt : Fmt) :
    ∀ (pre : List Unit_) (u : Unit_) (post : List Unit_) (files : List (String × String))
      (cm : String) (mods : List String) (e : GenError),
    (∀ a ∈ pre, a.genOk expand = true) →
    u.generate expand = .error e →
    writeLoop expand fmt false (pre ++ u :: post) files cm mods =
      { files := files
          ++ pre.map (fun a => (toSnakeCase a.contract_name ++ ".rs", a.fileOutput expand fmt))
        result := .error e } := by
  intro pre
  induction pre with
  | nil =>
    intro u post files cm mods e _ he
    rw [List.nil_append, writeLoop_cons_err expand fmt false u post files cm mods e he]
    simp
  | cons a rest ih =>
    intro u post files cm mods e hok he
    obtain ⟨b, hb⟩ := genOk_iff.mp (hok a (List.mem_cons_self a rest))
    rw [List.cons_append, writeLoop_cons_ok expand fmt false a _ files cm mods b hb,
      if_neg (by simp)]
    rw [ih u post _ cm _ e (fun x hx => hok x (List.mem_cons_of_mem a hx)) he]
    simp [fileOutput_eq hb, List.append_assoc]

theorem writeLoop_result_ok (expand : Expand) (fmt : Fmt) (sf : Bool) :
    ∀ (abis : List Unit_) (files : List (String × String)) (cm : String) (mods : List String),
    ((writeLoop expand fmt sf abis files cm mods).result = .ok ()) ↔
      ∀ a ∈ abis, a.genOk expand = true := by
  intro abis
  induction abis with
  | nil => intro files cm mods; simp [writeLoop_nil]
  | cons a rest ih =>
    intro files cm mods
    cases hb : a.generate expand with
    | error e =>
      rw [writeLoop_cons_err expand fmt sf a rest files cm mods e hb]
      simp [Unit_.genOk, hb]
    | ok b =>
      rw [writeLoop_cons_ok expand fmt sf a rest files cm mods b hb]
      cases sf with
      | true => rw [if_pos rfl]; simp [ih, Unit_.genOk, hb]
      | false => rw [if_neg (by simp)]; simp [ih, Unit_.genOk, hb]

theorem write_to_module_ok_iff (expand : Expand) (fmt : Fmt) (m : Multi) :
    ((m.write_to_module expand fmt).result = .ok ()) ↔
      ∀ a ∈ m.abigens, a.genOk expand = true :=
  writeLoop_result_ok expand fmt m.single_file m.abigens [] header []

/-! Oracle lemmas. -/

theorem oracle_eq_some (expand : Expand) (fmt : Fmt) (m : Multi)
    (target : List (String × String))
    (hok : (m.write_to_module expand fmt).result = .ok ()) :
    m.ensure_consistent_bindings expand fmt target =
      some ((filesToDir (m.write_to_module expand fmt).files).all fun p =>
        match dirLookup target p.1 with
        | none => false
        | some existing => existing == p.2) := by
  simp only [Multi.ensure_consistent_bindings, hok]

theorem oracle_true_of_superset (expand : Expand) (fmt : Fmt) (m : Multi)
    (target : List (String × String))
    (hok : (m.write_to_module expand fmt).result = .ok ())
    (h : ∀ p ∈ filesToDir (m.write_to_module expand fmt).files,
      dirLookup target p.1 = some p.2) :
    m.ensure_consistent_bindings expand fmt target = some true := by
  rw [oracle_eq_some expand fmt m target hok]
  refine congrArg some ?_
  rw [List.all_eq_true]
  intro p hp
  simp [h p hp]

theorem oracle_false_of_missing (expand : Expand) (fmt : Fmt) (m : Multi)
    (target : List (String × String)) {p : String × String}
    (hok : (m.write_to_module expand fmt).result = .ok ())
    (hp : p ∈ filesToDir (m.write_to_module expand fmt).files)
    (hmiss : dirLookup target p.1 = none) :
    m.ensure_consistent_bindings expand fmt target = some false := by
  rw [oracle_eq_some expand fmt m target hok]
  refine congrArg some ?_
  rw [List.all_eq_false]
  exact ⟨p, hp, by simp [hmiss]⟩

/-! Manifest lemmas. -/

theorem lastWrite_snoc_self (fs : List (String × String)) (n c : String) :
    lastWrite (fs ++ [(n, c)]) n = some c := by
  rw [lastWrite_append]
  simp [lastWrite]

theorem manifest_lookup_multi (expand : Expand) (fmt : Fmt) (m : Multi)
    (hsf : m.single_file = false)
    (hok : ∀ a ∈ m.abigens, a.genOk expand = true) :
    dirLookup (filesToDir (m.write_to_module expand fmt).files) "mod.rs" =
      some (manifestString header
        (m.abigens.map (fun a => exportDecl (toSnakeCase a.contract_name)))) := by
  rw [Multi.write_to_module, hsf, writeLoop_ok_multi expand fmt m.abigens [] header [] hok]
  rw [dirLookup_filesToDir]
  simp only [List.nil_append]
  exact lastWrite_snoc_self _ _ _

theorem lexLeB_total : ∀ x y : List Char, lexLeB x y = true ∨ lexLeB y x = true
  | [], _ => Or.inl rfl
  | _ :: _, [] => Or.inr rfl
  | a :: as, b :: bs => by
    by_cases h1 : a < b
    · exact Or.inl (by simp [lexLeB, h1])
    · by_cases h2 : b < a
      · exact Or.inr (by simp [lexLeB, h2])
      · have hab : a = b := le_antisymm (not_lt.mp h2) (not_lt.mp h1)
        subst hab
        rcases lexLeB_total as bs with h | h
        · exact Or.inl (by simp [lexLeB, lt_irrefl a, h])
        · exact Or.inr (by simp [lexLeB, lt_irrefl a, h])

theorem lexLeB_trans :
    ∀ x y z : List Char, lexLeB x y = true → lexLeB y z = true → lexLeB x z = true
  | [], _, _ => fun _ _ => rfl
  | _ :: _, [], _ => fun h _ => by simp [lexLeB] at h
  | _ :: _, _ :: _, [] => fun _ h => by simp [lexLeB] at h
  | a :: as, b :: bs, c :: cs => fun h1 h2 => by
    by_cases hba : b < a
    · simp [lexLeB, lt_asymm hba, hba] at h1
    by_cases hcb : c < b
    · simp [lexLeB, lt_asymm hcb, hcb] at h2
    by_cases hab : a < b
    · by_cases hbc : b < c
      · simp [lexLeB, lt_trans hab hbc]
      · have hbc' : b = c := le_antisymm (not_lt.mp hcb) (not_lt.mp hbc)
        subst hbc'
        simp [lexLeB, hab]
    · have hab' : a = b := le_antisymm (not_lt.mp hba) (not_lt.mp hab)
      subst hab'
      by_cases hac : a < c
      · simp [lexLeB, hac]
      · have hac' : a = c := le_antisymm (not_lt.mp hcb) (not_lt.mp hac)
        subst hac'
        simp [lexLeB, lt_irrefl a] at h1 h2 ⊢
        exact lexLeB_trans as bs cs h1 h2

theorem lexLeB_antisymm :
    ∀ x y : List Char, lexLeB x y = true → lexLeB y x = true → x = y
  | [], [] => fun _ _ => rfl
  | [], _ :: _ => fun _ h2 => by simp [lexLeB] at h2
  | _ :: _, [] => fun h1 _ => by simp [lexLeB] at h1
  | a :: as, b :: bs => fun h1 h2 => by
    by_cases hab : a < b
    · simp [lexLeB, hab, lt_asymm hab] at h2
    · by_cases hba : b < a
      · simp [lexLeB, hab, hba] at h1
      · have e : a = b := le_antisymm (not_lt.mp hba) (not_lt.mp hab)
        subst e
        simp [lexLeB, lt_irrefl a] at h1 h2
        rw [lexLeB_antisymm as bs h1 h2]

instance : IsTotal String strLe :=
  ⟨fun a b => lexLeB_total a.data b.data⟩

instance : IsTrans String strLe :=
  ⟨fun a b c => lexLeB_trans a.data b.data c.data⟩

instance : IsAntisymm String strLe :=
  ⟨fun a b h1 h2 => by
    cases a with
    | mk da =>
      cases b with
      | mk db => rw [lexLeB_antisymm da db h1 h2]⟩

theorem insertionSort_eq_of_perm {l₁ l₂ : List String} (h : l₁.Perm l₂) :
    List.insertionSort strLe l₁ = List.insertionSort strLe l₂ :=
  List.eq_of_perm_of_sorted
    ((List.perm_insertionSort _ l₁).trans (h.trans (List.perm_insertionSort _ l₂).symm))
    (List.sorted_insertionSort _ l₁) (List.sorted_insertionSort _ l₂)

theorem manifestString_perm (cm : String) {l₁ l₂ : List String} (h : l₁.Perm l₂) :
    manifestString cm l₁ = manifestString cm l₂ := by
  rw [manifestString, manifestString, insertionSort_eq_of_perm h]
  cases l₁ with
  | nil =>
    have h2 : l₂ = [] := h.symm.eq_nil
    rw [h2]
  | cons a l =>
    cases l₂ with
    | nil => exact absurd h.eq_nil (by simp)
    | cons b l' => rfl

theorem write_to_module_def (expand : Expand) (fmt : Fmt) (sf : Bool) (abis : List Unit_) :
    Multi.write_to_module expand fmt ⟨sf, abis⟩ = writeLoop expand fmt sf abis [] header [] :=
  rfl

theorem lastWrite_singleton (n c k : String) :
    lastWrite [(n, c)] k = if n = k then some c else none := rfl

/-- In a successful multi-file run over `abis ++ [u]`, the appended
unit's per-contract file ends up in the written directory with the
appended unit's output (its write is the last one for that name, the
manifest's excepted). -/
theorem appended_unit_file_lookup (expand : Expand) (fmt : Fmt) (abis : List Unit_)
    (u : Unit_) (hall : ∀ a ∈ abis ++ [u], a.genOk expand = true)
    (hkey : toSnakeCase u.contract_name ++ ".rs" ≠ "mod.rs") :
    dirLookup
        (filesToDir (Multi.write_to_module expand fmt ⟨false, abis ++ [u]⟩).files)
        (toSnakeCase u.contract_name ++ ".rs") = some (u.fileOutput expand fmt) := by
  rw [write_to_module_def, writeLoop_ok_multi expand fmt (abis ++ [u]) [] header [] hall]
  rw [dirLookup_filesToDir]
  simp only [List.nil_append, List.map_append, List.map_cons, List.map_nil]
  have hm : ¬ ("mod.rs" = toSnakeCase u.contract_name ++ ".rs") := fun hh => hkey hh.symm
  simp [lastWrite_append, lastWrite, hm]

/-! Claim theorems. -/

/-- Claim C10: for a batch containing zero units, in either output mode,
`write_to_module` succeeds and writes exactly one file, the manifest
`mod.rs`, whose content is exactly the fixed header comment line with no
export declarations and no generated source. -/
theorem empty_batch_writes_header_manifest (expand : Expand) (fmt : Fmt) (sf : Bool) :
    Multi.write_to_module expand fmt { single_file := sf, abigens := [] } =
      { files := [("mod.rs", header)], result := .ok () } := by
  rw [Multi.write_to_module, writeLoop_nil]
  simp [manifestString]

/-- Claim C4: for a batch of N units that all generate successfully,
`write_to_module` in multi-file mode writes exactly the N per-contract
files plus exactly one manifest file (N + 1 file writes); in single-file
mode it writes exactly one file, the manifest holding all units'
concatenated generated source. -/
theorem write_to_module_file_count (expand : Expand) (fmt : Fmt) (m : Multi)
    (hok : ∀ a ∈ m.abigens, a.genOk expand = true) :
    (m.single_file = false →
      (m.write_to_module expand fmt).files =
        m.abigens.map (fun a => (toSnakeCase a.contract_name ++ ".rs", a.fileOutput expand fmt))
          ++ [("mod.rs",
                manifestString header
                  (m.abigens.map (fun a => exportDecl (toSnakeCase a.contract_name))))] ∧
      (m.write_to_module expand fmt).files.length = m.abigens.length + 1) ∧
    (m.single_file = true →
      (m.write_to_module expand fmt).files =
        [("mod.rs",
          header ++ concatAll (m.abigens.map (fun a => a.fileOutput expand fmt)))]) := by
  constructor
  · intro hsf
    rw [Multi.write_to_module, hsf, writeLoop_ok_multi expand fmt m.abigens [] header [] hok]
    simp
  · intro hsf
    rw [Multi.write_to_module, hsf, writeLoop_ok_single expand fmt m.abigens [] header hok]
    simp

theorem write_to_module_file_count_witness :
    (((Multi.from_abigen [mkUnit "A", mkUnit "C"]).write_to_module expandName fmtId).files.length
        = 2 + 1) ∧
    (((Multi.from_abigen [mkUnit "A"]).set_single_file.write_to_module expandName fmtId).files =
      [("mod.rs", header ++ concatAll [(mkUnit "A").fileOutput expandName fmtId])]) := by
  constructor
  · exact ((write_to_module_file_count expandName fmtId
      (Multi.from_abigen [mkUnit "A", mkUnit "C"]) (by decide)).1 rfl).2
  · have h := (write_to_module_file_count expandName fmtId
      (Multi.from_abigen [mkUnit "A"]).set_single_file (by decide)).2 rfl
    rw [h]
    decide

/-- Claim C7: in multi-file mode, if one unit's generation fails during
`write_to_module`, the call returns that error immediately: the files
written are exactly the per-contract files of the units preceding the
failing one (they remain; there is no rollback), and no manifest file is
written in that call. -/
theorem write_to_module_aborts_without_rollback (expand : Expand) (fmt : Fmt)
    (pre : List Unit_) (u : Unit_) (post : List Unit_) (e : GenError)
    (hpre : ∀ a ∈ pre, a.genOk expand = true)
    (hu : u.generate expand = .error e) :
    Multi.write_to_module expand fmt { single_file := false, abigens := pre ++ u :: post } =
      { files :=
          pre.map (fun a => (toSnakeCase a.contract_name ++ ".rs", a.fileOutput expand fmt))
        result := .error e } := by
  rw [Multi.write_to_module,
    writeLoop_err_multi expand fmt pre u post [] header [] e hpre hu]
  simp

theorem write_to_module_aborts_witness :
    Multi.write_to_module expandFailB fmtId
        { single_file := false, abigens := [mkUnit "A", mkUnit "B", mkUnit "C"] } =
      { files := [("a.rs", "src_A ")], result := .error (.codegenError "B") } := by
  have h := write_to_module_aborts_without_rollback expandFailB fmtId
    [mkUnit "A"] (mkUnit "B") [mkUnit "C"] (.codegenError "B") (by decide) (by decide)
  rw [show ([mkUnit "A", mkUnit "B", mkUnit "C"] : List Unit_)
      = [mkUnit "A"] ++ (mkUnit "B") :: [mkUnit "C"] from rfl, h]
  decide

/-- Claim C6: `ContractBindings::write` never surfaces a formatter error:
its outcome is always the sink applied to the rendered text, so it can
fail only with the I/O error of the sink write itself; and whenever the
formatter fails on the artifact's text, the unformatted text is what gets
written to the sink. -/
theorem write_never_surfaces_format_error (fmt : Fmt) (sink : Sink) (b : ContractBindings) :
    (∃ s, b.write fmt sink = sink s) ∧
    (∀ e, fmt b.tokens = .error e → b.write fmt sink = sink b.tokens) := by
  constructor
  · exact ⟨b.writeString fmt, rfl⟩
  · intro e he
    cases hb : b.rustfmt <;>
      simp [ContractBindings.write, ContractBindings.writeString, hb, he]

theorem write_format_fallback_witness :
    ContractBindings.write fmtFail sinkOk { tokens := "tok", rustfmt := true } =
      sinkOk "tok" :=
  (write_never_surfaces_format_error fmtFail sinkOk { tokens := "tok", rustfmt := true }).2
    ⟨"rustfmt missing"⟩ (by decide)

/-- Claim C8: every batch-construction path forces `rustfmt = true` on
every wrapped unit: `from_abigen` overrides whatever value each unit's
flag held, and `MultiAbigen::new` and `from_json_files`, which delegate
to it, produce only units with the flag set. -/
theorem batch_units_rustfmt_true :
    (∀ (abis : List Unit_) (a : Unit_),
      a ∈ (Multi.from_abigen abis).abigens → a.rustfmt = true) ∧
    (∀ (pairs : List (String × String)) (m : Multi), Multi.new pairs = .ok m →
      ∀ a ∈ m.abigens, a.rustfmt = true) ∧
    (∀ (dirFiles : List (String × String)) (m : Multi),
      Multi.from_json_files dirFiles = .ok m →
      ∀ a ∈ m.abigens, a.rustfmt = true) := by
  have h1 : ∀ (abis : List Unit_) (a : Unit_),
      a ∈ (Multi.from_abigen abis).abigens → a.rustfmt = true := by
    intro abis a ha
    rw [Multi.from_abigen] at ha
    obtain ⟨x, _, hx⟩ := List.mem_map.mp ha
    rw [← hx]
    rfl
  have h2 : ∀ (pairs : List (String × String)) (m : Multi), Multi.new pairs = .ok m →
      ∀ a ∈ m.abigens, a.rustfmt = true := by
    intro pairs m hm a ha
    rw [Multi.new] at hm
    cases hc : collectUnits pairs with
    | error e => rw [hc] at hm; exact Except.noConfusion hm
    | ok abis =>
      rw [hc] at hm
      injection hm with hm
      exact h1 abis a (hm ▸ ha)
  exact ⟨h1, h2, fun dirFiles m hm => h2 _ m hm⟩

theorem batch_units_rustfmt_true_witness :
    (((mkUnit "A").set_rustfmt false).set_rustfmt true).rustfmt = true :=
  batch_units_rustfmt_true.1 [(mkUnit "A").set_rustfmt false] _ (by decide)

/-- Claim C5: if any (name, source) pair's source string cannot be
classified into a source descriptor, `MultiAbigen::new` returns an error
and produces no batch — hence no generation unit for any pair, the valid
ones included (the error result carries no units). -/
theorem new_fails_fast (pairs : List (String × String)) (n s : String) (e : GenError)
    (hmem : (n, s) ∈ pairs) (hfail : Unit_.new n s = .error e) :
    ∃ e', Multi.new pairs = .error e' := by
  suffices h : ∃ e', collectUnits pairs = .error e' by
    obtain ⟨e', he⟩ := h
    exact ⟨e', by simp [Multi.new, he]⟩
  induction pairs with
  | nil => cases hmem
  | cons p rest ih =>
    obtain ⟨pn, ps⟩ := p
    rcases List.mem_cons.mp hmem with h | h
    · injection h with hn hs
      subst hn
      subst hs
      exact ⟨e, by simp [collectUnits, hfail]⟩
    · cases hp : Unit_.new pn ps with
      | error e2 => exact ⟨e2, by simp [collectUnits, hp]⟩
      | ok a =>
        obtain ⟨e', he'⟩ := ih h
        exact ⟨e', by simp [collectUnits, hp, he']⟩

theorem new_fails_fast_witness :
    ∃ e', Multi.new [("A", "[x]"), ("B", "zzz"), ("C", "\x7b\x7d")] = .error e' :=
  new_fails_fast [("A", "[x]"), ("B", "zzz"), ("C", "\x7b\x7d")] "B" "zzz"
    (.sourceError "zzz") (by decide) (by decide)

/-- Claim C9: the consistency oracle checks only one direction: when the
fresh regeneration succeeds and every freshly generated file has a
same-named, byte-identical counterpart in the target directory, it
returns true — also when the target directory contains additional files
the fresh run does not produce (stale files are never detected). -/
theorem oracle_is_one_directional (expand : Expand) (fmt : Fmt) (m : Multi)
    (target : List (String × String))
    (hok : (m.write_to_module expand fmt).result = .ok ())
    (hsub : ∀ p ∈ filesToDir (m.write_to_module expand fmt).files,
      dirLookup target p.1 = some p.2) :
    m.ensure_consistent_bindings expand fmt target = some true :=
  oracle_true_of_superset expand fmt m target hok hsub

theorem oracle_is_one_directional_witness :
    (Multi.from_abigen [mkUnit "A"]).ensure_consistent_bindings expandName fmtId
        (dirWrite
          (filesToDir
            ((Multi.from_abigen [mkUnit "A"]).write_to_module expandName fmtId).files)
          "stale.rs" "left over") = some true :=
  oracle_is_one_directional expandName fmtId (Multi.from_abigen [mkUnit "A"]) _
    (by decide) (by decide)

/-- Claim C2 counterexample: the batch of contracts A and A0 has module
names a and a0 with a < a0, yet the manifest written by a successful
`write_to_module` lists `pub mod a0;` before `pub mod a;` (the sort
compares full declaration strings, and the digit 0 sorts below the
terminating semicolon) — so the export list is not sorted
lexicographically by module_name. -/
theorem manifest_not_sorted_by_module_name :
    ((Multi.from_abigen [mkUnit "A", mkUnit "A0"]).write_to_module expandName fmtId).result
        = .ok () ∧
    dirLookup
        (filesToDir
          ((Multi.from_abigen [mkUnit "A", mkUnit "A0"]).write_to_module
            expandName fmtId).files)
        "mod.rs" =
      some (header ++ "pub mod a0;\npub mod a;") ∧
    strLe (toSnakeCase "A") (toSnakeCase "A0") ∧
    toSnakeCase "A" ≠ toSnakeCase "A0" :=
  ⟨by decide, by decide, by decide, by decide⟩

/-- Claim C2 (amended): in multi-file mode, after `write_to_module`
succeeds, the export-declaration list written into the manifest is sorted
lexicographically as full declaration strings `pub mod <module_name>;` —
which deviates from module_name order exactly when one module name is a
proper prefix of another continuing with a character below `;`, such as a
digit — and the manifest content is identical for any two orderings
(permutations) of the same units. -/
theorem manifest_sorted_and_permutation_invariant (expand : Expand) (fmt : Fmt)
    (m₁ m₂ : Multi)
    (hsf₁ : m₁.single_file = false) (hsf₂ : m₂.single_file = false)
    (hperm : m₁.abigens.Perm m₂.abigens)
    (hok : (m₁.write_to_module expand fmt).result = .ok ()) :
    ((m₂.write_to_module expand fmt).result = .ok ()) ∧
    List.Sorted strLe
      (List.insertionSort strLe
        (m₁.abigens.map (fun a => exportDecl (toSnakeCase a.contract_name)))) ∧
    dirLookup (filesToDir (m₁.write_to_module expand fmt).files) "mod.rs" =
      some (manifestString header
        (m₁.abigens.map (fun a => exportDecl (toSnakeCase a.contract_name)))) ∧
    dirLookup (filesToDir (m₂.write_to_module expand fmt).files) "mod.rs" =
      dirLookup (filesToDir (m₁.write_to_module expand fmt).files) "mod.rs" := by
  have hall₁ : ∀ a ∈ m₁.abigens, a.genOk expand = true :=
    (write_to_module_ok_iff expand fmt m₁).mp hok
  have hall₂ : ∀ a ∈ m₂.abigens, a.genOk expand = true :=
    fun a ha => hall₁ a (hperm.mem_iff.mpr ha)
  refine ⟨(write_to_module_ok_iff expand fmt m₂).mpr hall₂,
    List.sorted_insertionSort _ _, manifest_lookup_multi expand fmt m₁ hsf₁ hall₁, ?_⟩
  rw [manifest_lookup_multi expand fmt m₂ hsf₂ hall₂,
    manifest_lookup_multi expand fmt m₁ hsf₁ hall₁]
  exact congrArg some (manifestString_perm header (hperm.map _).symm)

theorem manifest_permutation_witness :
    dirLookup
        (filesToDir
          ((Multi.from_abigen [mkUnit "C", mkUnit "A"]).write_to_module
            expandName fmtId).files)
        "mod.rs" =
      dirLookup
        (filesToDir
          ((Multi.from_abigen [mkUnit "A", mkUnit "C"]).write_to_module
            expandName fmtId).files)
        "mod.rs" :=
  (manifest_sorted_and_permutation_invariant expandName fmtId
    (Multi.from_abigen [mkUnit "A", mkUnit "C"]) (Multi.from_abigen [mkUnit "C", mkUnit "A"])
    rfl rfl (by decide) (by decide)).2.2.2

/-- Claim C3 counterexample: the contracts Foo and foo share the module
name foo, yet `write_to_module` on the two-unit batch succeeds — module
name collisions do not make generation fail. -/
theorem module_name_collision_not_an_error :
    toSnakeCase "Foo" = toSnakeCase "foo" ∧
    ((Multi.from_abigen [mkUnit "Foo", mkUnit "foo"]).write_to_module
        expandName fmtId).result = .ok () :=
  ⟨by decide, by decide⟩

/-- Claim C3 (amended): a module-name collision is not detected: with two
units whose module names collide, both generating successfully and the
shared file name differing from the manifest's, `write_to_module`
succeeds, the second unit's per-contract file silently overwrites the
first's, and the manifest records the same export declaration twice. -/
theorem module_name_collision_overwrites (expand : Expand) (fmt : Fmt) (u v : Unit_)
    (hcoll : toSnakeCase u.contract_name = toSnakeCase v.contract_name)
    (hmod : toSnakeCase u.contract_name ++ ".rs" ≠ "mod.rs")
    (hgu : u.genOk expand = true) (hgv : v.genOk expand = true) :
    (Multi.write_to_module expand fmt ⟨false, [u, v]⟩).result = .ok () ∧
    dirLookup (filesToDir (Multi.write_to_module expand fmt ⟨false, [u, v]⟩).files)
        (toSnakeCase u.contract_name ++ ".rs") = some (v.fileOutput expand fmt) ∧
    dirLookup (filesToDir (Multi.write_to_module expand fmt ⟨false, [u, v]⟩).files)
        "mod.rs" =
      some (manifestString header
        [exportDecl (toSnakeCase u.contract_name),
         exportDecl (toSnakeCase u.contract_name)]) := by
  have hall : ∀ a ∈ [u, v], a.genOk expand = true := by
    intro a ha
    rcases List.mem_cons.mp ha with h | h
    · rw [h]; exact hgu
    · rcases List.mem_cons.mp h with h' | h'
      · rw [h']; exact hgv
      · cases h'
  have hm : ¬ ("mod.rs" = toSnakeCase u.contract_name ++ ".rs") := fun hh => hmod hh.symm
  have hv : toSnakeCase v.contract_name ++ ".rs" = toSnakeCase u.contract_name ++ ".rs" := by
    rw [hcoll]
  refine ⟨(write_to_module_ok_iff expand fmt _).mpr hall, ?_, ?_⟩
  · rw [write_to_module_def, writeLoop_ok_multi expand fmt [u, v] [] header [] hall]
    rw [dirLookup_filesToDir]
    simp [lastWrite_append, lastWrite_singleton, lastWrite, hm, hv]
  · rw [write_to_module_def, writeLoop_ok_multi expand fmt [u, v] [] header [] hall]
    rw [dirLookup_filesToDir]
    simp [lastWrite_append, lastWrite_singleton, lastWrite, hcoll]

theorem module_name_collision_overwrites_witness :
    dirLookup
        (filesToDir
          (Multi.write_to_module expandName fmtId
            ⟨false, [mkUnit "Foo", mkUnit "foo"]⟩).files)
        (toSnakeCase "Foo" ++ ".rs") = some ((mkUnit "foo").fileOutput expandName fmtId) :=
  (module_name_collision_overwrites expandName fmtId (mkUnit "Foo") (mkUnit "foo")
    (by decide) (by decide) (by decide) (by decide)).2.1

/-- Claim C1 (amended): calling the oracle immediately after a successful
`write_to_module` of the same batch into the target directory returns
true; and appending a further unit which generates successfully and
whose per-contract file name does not occur in the target directory makes
the oracle return false.  (An append that leaves the generated output
tree byte-identical — e.g. a unit expanding to the empty string in
single-file mode — leaves the oracle at true, so the unrestricted second
half of the claim fails.) -/
theorem oracle_roundtrip :
    (∀ (expand : Expand) (fmt : Fmt) (m : Multi) (d₀ : List (String × String)),
      (m.write_to_module expand fmt).result = .ok () →
      m.ensure_consistent_bindings expand fmt
        (applyWrites d₀ (m.write_to_module expand fmt).files) = some true) ∧
    (∀ (expand : Expand) (fmt : Fmt) (m : Multi) (u : Unit_)
      (target : List (String × String)),
      m.single_file = false →
      (∀ a ∈ m.abigens, a.genOk expand = true) →
      u.genOk expand = true →
      dirLookup target (toSnakeCase u.contract_name ++ ".rs") = none →
      Multi.ensure_consistent_bindings expand fmt ⟨false, m.abigens ++ [u]⟩ target
        = some false) := by
  constructor
  · intro expand fmt m d₀ hok
    exact oracle_true_of_superset expand fmt m _ hok
      (fun p hp => dirLookup_applyWrites_of_mem hp d₀)
  · intro expand fmt m u target hsf hall hu hmiss
    have hall' : ∀ a ∈ m.abigens ++ [u], a.genOk expand = true := by
      intro a ha
      rcases List.mem_append.mp ha with h | h
      · exact hall a h
      · rcases List.mem_cons.mp h with h' | h'
        · rw [h']; exact hu
        · cases h'
    have hok' : (Multi.write_to_module expand fmt ⟨false, m.abigens ++ [u]⟩).result
        = .ok () :=
      (write_to_module_ok_iff expand fmt _).mpr hall'
    by_cases hkey : toSnakeCase u.contract_name ++ ".rs" = "mod.rs"
    · have hman := manifest_lookup_multi expand fmt ⟨false, m.abigens ++ [u]⟩ rfl hall'
      exact oracle_false_of_missing expand fmt _ target hok' (mem_of_dirLookup hman)
        (hkey ▸ hmiss)
    · have hlook := appended_unit_file_lookup expand fmt m.abigens u hall' hkey
      exact oracle_false_of_missing expand fmt _ target hok' (mem_of_dirLookup hlook) hmiss

theorem oracle_roundtrip_witness :
    ((Multi.from_abigen [mkUnit "A"]).ensure_consistent_bindings expandName fmtId
        (applyWrites []
          ((Multi.from_abigen [mkUnit "A"]).write_to_module expandName fmtId).files)
      = some true) ∧
    (Multi.ensure_consistent_bindings expandName fmtId
        ⟨false, (Multi.from_abigen [mkUnit "A"]).abigens ++ [mkUnit "B"]⟩
        (filesToDir
          ((Multi.from_abigen [mkUnit "A"]).write_to_module expandName fmtId).files)
      = some false) :=
  ⟨oracle_roundtrip.1 expandName fmtId (Multi.from_abigen [mkUnit "A"]) [] (by decide),
   oracle_roundtrip.2 expandName fmtId (Multi.from_abigen [mkUnit "A"]) (mkUnit "B") _
     rfl (by decide) (by decide) (by decide)⟩

/-- Claim C1 counterexample: for the single-file batch holding only
contract A (expansion "aaa"), `write_to_module` succeeds; appending
contract B, whose expansion is the empty string, changes no byte of the
freshly generated mod.rs, so the oracle against the unchanged target
still returns true — not false, as the claim requires after any
append. -/
theorem oracle_roundtrip_counterexample :
    ((⟨true, [mkUnit "A"]⟩ : Multi).write_to_module expandAOnly fmtId).result = .ok () ∧
    (⟨true, [mkUnit "A", mkUnit "B"]⟩ : Multi).abigens
        = (⟨true, [mkUnit "A"]⟩ : Multi).abigens ++ [mkUnit "B"] ∧
    Multi.ensure_consistent_bindings expandAOnly fmtId ⟨true, [mkUnit "A", mkUnit "B"]⟩
        (filesToDir ((⟨true, [mkUnit "A"]⟩ : Multi).write_to_module expandAOnly fmtId).files)
      = some true :=
  ⟨by decide, by decide, by decide⟩

end Abigen
